import Mathlib

/-!
Verification development for the StreamDb (`.sdb`) container implemented in
`create_idtech4_project.py` (class `StreamDb` and its helpers).

Modelling conventions, chosen to mirror the Python source as directly as
possible:

* Byte strings (`bytes` and, where they are serialized, `str` values in their
  UTF-8 encoded form) are `List Nat`; every meaningful element is `< 256`.
  Logical paths are handled at the byte level; for the ASCII inputs used in
  the concrete theorems below this coincides with the character-wise
  behaviour of the Python code.
* The backing file opened in `__init__` is a journal of positioned writes
  (`File`); a byte of the file is the value of the most recent write covering
  its offset, unwritten holes inside the file extent read as `0`, and reads
  are cut off at the current end of file, as POSIX reads are.
* `uuid.uuid4()` is nondeterministic; the state carries a supply
  `uuidSupply : Nat → Nat` together with a draw counter, and each
  `write_document` call draws the next value.  A UUID is modelled by its
  128-bit integer value (`uuid.UUID.int`); `uuid.bytes` is its big-endian
  16-byte form, and Python compares `UUID` values by that integer.
* `snappy` is modelled as an abstract codec (the spec treats it as a
  swappable codec); `decompress` is partial because the library raises on
  malformed input.  Concrete theorems run with compression disabled, where
  the codec is never consulted, matching `use_compression=False`.
* Python dicts are insertion-ordered association lists with unique keys;
  assignment to an existing key replaces the value in place (`dictInsert`).
* `struct.pack`/`struct.unpack_from` with format `<` are explicit
  little-endian encoders with no padding; packing a value out of range
  raises in Python and never happens in the runs modelled here, so the
  encoders wrap modulo 2^width.
* Each `self.file.seek(o)` followed by consecutive writes is one journal
  entry at offset `o` with the concatenated bytes.
* In addition to the byte-level file, the state keeps a ghost `log` of the
  `write_raw_page` calls (page id, uncompressed data, stored bytes, flags,
  version, prev, next); `write_raw_page` appends to both, so the log is a
  faithful trace of the page writes.
* The `while` loops of `_trie_insert` (and of the spec's read-path dual)
  follow links between on-disk pages, so they are given explicit fuel; a
  `none` result stands for a Python exception or a loop that does not
  terminate.  The chunk loop of `write_document` recurses structurally on
  the remaining payload.
-/

/-- `MAGIC` from the source: 55 AA FE ED FA CE DA 7A. -/
def magicBytes : List Nat := [0x55, 0xAA, 0xFE, 0xED, 0xFA, 0xCE, 0xDA, 0x7A]

/-- `PAGE_SIZE = 4096`. -/
def PAGE_SIZE : Nat := 4096

/-- `PAGE_HEADER_SIZE = 32`. -/
def PAGE_HEADER_SIZE : Nat := 32

/-- `FLAG_DATA_PAGE = 0x01`. -/
def FLAG_DATA_PAGE : Nat := 0x01

/-- `FLAG_TRIE_PAGE = 0x02`. -/
def FLAG_TRIE_PAGE : Nat := 0x02

/-- `FLAG_FREE_LIST_PAGE = 0x04`. -/
def FLAG_FREE_LIST_PAGE : Nat := 0x04

/-- `FLAG_INDEX_PAGE = 0x08`. -/
def FLAG_INDEX_PAGE : Nat := 0x08

/-- `HEADER_SIZE = 8 + 3 * (8 + 4)`, exactly as written in the source. -/
def HEADER_SIZE : Nat := 8 + 3 * (8 + 4)

/-- Little-endian byte decomposition: `k` bytes of `n`. -/
def bytesLE : Nat → Nat → List Nat
  | 0, _ => []
  | k + 1, n => n % 256 :: bytesLE k (n / 256)

/-- Big-endian byte decomposition: `k` bytes of `n` (most significant first). -/
def bytesBE : Nat → Nat → List Nat
  | 0, _ => []
  | k + 1, n => n / 256 ^ k :: bytesBE k (n % 256 ^ k)

/-- Value of a little-endian byte string. -/
def natFromLE : List Nat → Nat
  | [] => 0
  | b :: bs => b + 256 * natFromLE bs

/-- Value of a big-endian byte string. -/
def natFromBE (bs : List Nat) : Nat := bs.foldl (fun a b => a * 256 + b) 0

/-- `struct.pack('<I', n)`: unsigned 32-bit little-endian. -/
def pack_u32 (n : Nat) : List Nat := bytesLE 4 (n % 2 ^ 32)

/-- `struct.pack('<i', v)`: signed 32-bit little-endian (two's complement). -/
def pack_i32 (v : Int) : List Nat := bytesLE 4 (v % (2 ^ 32 : Int)).toNat

/-- `struct.pack('<q', v)`: signed 64-bit little-endian (two's complement). -/
def pack_i64 (v : Int) : List Nat := bytesLE 8 (v % (2 ^ 64 : Int)).toNat

/-- Reinterpret an unsigned 32-bit value as signed. -/
def toSigned32 (n : Nat) : Int := if n < 2 ^ 31 then (n : Int) else (n : Int) - 2 ^ 32

/-- Reinterpret an unsigned 64-bit value as signed. -/
def toSigned64 (n : Nat) : Int := if n < 2 ^ 63 then (n : Int) else (n : Int) - 2 ^ 64

/-- `uuid.UUID.bytes`: the 16 big-endian bytes of the 128-bit UUID value. -/
def uuidBytes (d : Nat) : List Nat := bytesBE 16 d

/-- One round of the reflected CRC-32 bit loop (polynomial 0xEDB88320). -/
def crcStep (c : Nat) : Nat :=
  if c % 2 = 1 then Nat.xor (c / 2) 0xEDB88320 else c / 2

/-- Iterate `crcStep`. -/
def crcSteps : Nat → Nat → Nat
  | 0, c => c
  | k + 1, c => crcSteps k (crcStep c)

/-- Absorb one byte into a CRC-32 accumulator. -/
def crcByte (c b : Nat) : Nat := crcSteps 8 (Nat.xor c b)

/-- `binascii.crc32(bs) & 0xffffffff`: the standard reflected CRC-32. -/
def crc32 (bs : List Nat) : Nat :=
  Nat.xor (bs.foldl crcByte 0xFFFFFFFF) 0xFFFFFFFF

/-- UTF-8 encoding of a single code point (`str.encode` on one character). -/
def utf8EncodeCp (c : Nat) : List Nat :=
  if c < 0x80 then [c]
  else if c < 0x800 then [0xC0 + c / 64, 0x80 + c % 64]
  else if c < 0x10000 then [0xE0 + c / 4096, 0x80 + c / 64 % 64, 0x80 + c % 64]
  else [0xF0 + c / 262144, 0x80 + c / 4096 % 64, 0x80 + c / 64 % 64, 0x80 + c % 64]

/-- Tail-recursive list length (definitionally evaluation-friendly; equal to
`List.length` by `listLen_eq`). -/
def listLen {α : Type} (l : List α) : Nat := l.foldl (fun a _ => a + 1) 0

/-- The backing file as a journal of positioned writes, oldest first. -/
abbrev File := List (Nat × List Nat)

/-- `seek(off)` followed by `write(bs)`: append to the journal. -/
def fwrite (f : File) (off : Nat) (bs : List Nat) : File := f ++ [(off, bs)]

/-- Current file size: the end of the furthest write so far. -/
def fsize (f : File) : Nat := f.foldr (fun w m => max (w.1 + listLen w.2) m) 0

/-- The byte at offset `i`: the most recent write covering `i`, if any. -/
def fbyte (f : File) (i : Nat) : Option Nat :=
  f.reverse.findSome? fun w =>
    if w.1 ≤ i ∧ i < w.1 + listLen w.2 then w.2.get? (i - w.1) else none

/-- Read `k` successive bytes starting at `off`, holes reading as `0`. -/
def freadGo (f : File) : Nat → Nat → List Nat
  | _, 0 => []
  | off, k + 1 => (fbyte f off).getD 0 :: freadGo f (off + 1) k

/-- `seek(off)` followed by `read(n)`: at most `n` bytes, cut at end of
file, holes reading as `0`. -/
def fread (f : File) (off n : Nat) : List Nat :=
  freadGo f off (min n (fsize f - off))

/-- The byte codec (`snappy` in the source; the spec treats it as swappable).
`decompress` is partial because the library raises on malformed input. -/
structure Codec where
  compress : List Nat → List Nat
  decompress : List Nat → Option (List Nat)

/-- The identity codec, used for runs with `use_compression=False` where the
codec is never consulted. -/
def idCodec : Codec := ⟨fun x => x, fun x => some x⟩

/-- Python dict assignment `m[k] = v`: replace in place or append. -/
def dictInsert {α : Type} (m : List (Nat × α)) (k : Nat) (v : α) : List (Nat × α) :=
  if (m.map Prod.fst).contains k then
    m.map fun p => if p.1 = k then (k, v) else p
  else m ++ [(k, v)]

/-- Python dict lookup `m[k]` / `k in m`. -/
def dictLookup {α : Type} (m : List (Nat × α)) (k : Nat) : Option α :=
  (m.find? fun p => p.1 == k).map Prod.snd

/-- `sorted(items)` on key-value pairs with unique keys: a stable sort by
key (Python compares the keys; ties cannot occur among dict keys). -/
def sortByKey {α : Type} (l : List (Nat × α)) : List (Nat × α) :=
  List.insertionSort (fun a b => a.1 ≤ b.1) l

/-- Strict lexicographic order on byte strings, as a Boolean. -/
def bytesLt : List Nat → List Nat → Bool
  | _, [] => false
  | [], _ :: _ => true
  | a :: as, b :: bs => a < b || (a == b && bytesLt as bs)

/-- `ReverseTrieNode`: edge bytes, parent and self page ids, optional
document UUID, insertion-ordered child map (key byte to page id). -/
structure TrieNode where
  edge : List Nat
  parent : Int
  selfPage : Int
  docId : Option Nat
  children : List (Nat × Int)
  deriving DecidableEq

/-- `Document`: UUID, first page id, current version, list of paths. -/
structure Document where
  id : Nat
  firstPage : Int
  currentVersion : Int
  paths : List (List Nat)
  deriving DecidableEq

/-- Ghost record of one `write_raw_page` call. -/
structure PageWrite where
  pid : Int
  data : List Nat
  stored : List Nat
  flags : Nat
  version : Int
  prev : Int
  next : Int
  deriving DecidableEq

/-- The `StreamDb` object state.  `self.page_size` and
`self.page_header_size` are always the constants `PAGE_SIZE` and
`PAGE_HEADER_SIZE` set in `__init__`, so they are used directly. -/
structure SdbState where
  file : File
  log : List PageWrite
  useCompression : Bool
  codec : Codec
  currentPageId : Nat
  documents : List (Nat × Document)
  trieRootPageId : Int
  indexPageId : Int
  uuidSupply : Nat → Nat
  uuidCount : Nat

/-- `allocate_page`: return the counter and increment it. -/
def allocatePage (s : SdbState) : Nat × SdbState :=
  (s.currentPageId, { s with currentPageId := s.currentPageId + 1 })

/-- The stored bytes of a page write: compressed payload when compression is
enabled, the payload itself otherwise. -/
def storedBytes (s : SdbState) (data : List Nat) : List Nat :=
  if s.useCompression then s.codec.compress data else data

/-- The 32-byte page header `struct.pack('<I i q q B i B B B', crc, version,
prev, next, flags, data_length, 0, 0, 0)`. -/
def pageHeader (crc : Nat) (version prev next : Int) (flags : Nat) (dataLength : Int) : List Nat :=
  pack_u32 crc ++ pack_i32 version ++ pack_i64 prev ++ pack_i64 next ++
    [flags] ++ pack_i32 dataLength ++ [0, 0, 0]

/-- `write_raw_page(page_id, data, flags, version, prev_page_id,
next_page_id)`: compress, checksum, and write header plus stored bytes at
`HEADER_SIZE + page_id * PAGE_SIZE`.  There is no size check of any kind. -/
def writeRawPage (s : SdbState) (pid : Int) (data : List Nat) (flags : Nat)
    (version prev next : Int) : SdbState :=
  let stored := storedBytes s data
  let crc := crc32 stored
  let header := pageHeader crc version prev next flags (listLen stored : Int)
  { s with
    file := fwrite s.file ((HEADER_SIZE : Int) + pid * (PAGE_SIZE : Int)).toNat (header ++ stored)
    log := s.log ++ [⟨pid, data, stored, flags, version, prev, next⟩] }

/-- `_serialize_trie_node`. -/
def serializeTrieNode (n : TrieNode) : List Nat :=
  pack_i32 (n.edge.length : Int) ++ n.edge ++
    pack_i64 n.parent ++ pack_i64 n.selfPage ++
    pack_i32 (if n.docId.isSome then 1 else 0) ++
    (match n.docId with
      | some d => uuidBytes d
      | none => []) ++
    pack_i32 (n.children.length : Int) ++
    (sortByKey n.children).flatMap fun p => utf8EncodeCp p.1 ++ pack_i64 p.2

/-- `struct.unpack_from('<i', bs)` plus advancing the reader by 4; fails on a
short buffer exactly as `unpack_from` raises. -/
def parseI32 : List Nat → Option (Int × List Nat)
  | b0 :: b1 :: b2 :: b3 :: rest => some (toSigned32 (natFromLE [b0, b1, b2, b3]), rest)
  | _ => none

/-- `struct.unpack_from('<q', bs)` plus advancing the reader by 8. -/
def parseI64 : List Nat → Option (Int × List Nat)
  | b0 :: b1 :: b2 :: b3 :: b4 :: b5 :: b6 :: b7 :: rest =>
    some (toSigned64 (natFromLE [b0, b1, b2, b3, b4, b5, b6, b7]), rest)
  | _ => none

/-- Split off 16 bytes (`uuid.UUID(bytes=...)` requires exactly 16). -/
def take16 : List Nat → Option (List Nat × List Nat)
  | a0 :: a1 :: a2 :: a3 :: a4 :: a5 :: a6 :: a7 ::
    a8 :: a9 :: a10 :: a11 :: a12 :: a13 :: a14 :: a15 :: rest =>
    some ([a0, a1, a2, a3, a4, a5, a6, a7, a8, a9, a10, a11, a12, a13, a14, a15], rest)
  | _ => none

/-- The child-record loop of `_deserialize_trie_node`: each record is one key
byte (a one-byte UTF-8 decode, which requires the byte to be ASCII) and an
i64 page id; records accumulate by dict assignment. -/
def parseChildren : Nat → List Nat → List (Nat × Int) → Option (List (Nat × Int))
  | 0, _, acc => some acc
  | k + 1, bs, acc =>
    match bs with
    | [] => none
    | b :: rest =>
      if b < 128 then
        match parseI64 rest with
        | some (v, rest2) => parseChildren k rest2 (dictInsert acc b v)
        | none => none
      else none

/-- `_deserialize_trie_node`.  The reader advances sequentially exactly as
the Python index-based reader does; `uuid.UUID(bytes=...)` requires exactly
16 bytes. -/
def deserializeTrieNode (bs : List Nat) : Option TrieNode :=
  match parseI32 bs with
  | none => none
  | some (elen, r1) =>
    let edge := r1.take elen.toNat
    let r2 := r1.drop elen.toNat
    match parseI64 r2 with
    | none => none
    | some (parent, r3) =>
      match parseI64 r3 with
      | none => none
      | some (selfP, r4) =>
        match parseI32 r4 with
        | none => none
        | some (hasDoc, r5) =>
          let docRest : Option (Option Nat × List Nat) :=
            if hasDoc ≠ 0 then
              match take16 r5 with
              | some (u, rest) => some (some (natFromBE u), rest)
              | none => none
            else some (none, r5)
          match docRest with
          | none => none
          | some (docId, r6) =>
            match parseI32 r6 with
            | none => none
            | some (childCount, r7) =>
              match parseChildren childCount.toNat r7 [] with
              | none => none
              | some children => some ⟨edge, parent, selfP, docId, children⟩

/-- `_write_trie_node`. -/
def writeTrieNode (s : SdbState) (pid : Int) (n : TrieNode) : SdbState :=
  writeRawPage s pid (serializeTrieNode n) FLAG_TRIE_PAGE 0 (-1) (-1)

/-- `_read_trie_node`: read the whole payload region of the page (no
truncation by `payload_len`, no CRC verification), decompress if compression
is enabled, and deserialize.  A negative page id makes `seek` raise in
Python (negative seek position), modelled by `none`. -/
def readTrieNode (s : SdbState) (pid : Int) : Option TrieNode :=
  if pid < 0 then none
  else
    let off := ((HEADER_SIZE : Int) + pid * (PAGE_SIZE : Int) + (PAGE_HEADER_SIZE : Int)).toNat
    let raw := fread s.file off (PAGE_SIZE - PAGE_HEADER_SIZE)
    match (if s.useCompression then s.codec.decompress raw else some raw) with
    | none => none
    | some data => deserializeTrieNode data

/-- Length of the longest common first segment of two byte strings (the
`while common < min_len and remaining[common] == edge[common]` loop). -/
def commonLen : List Nat → List Nat → Nat
  | a :: as, b :: bs => if a = b then commonLen as bs + 1 else 0
  | _, _ => 0

/-- The body of the `while remaining:` loop of `_trie_insert`, with fuel.
Returns `none` on a failed page read (a Python exception) or on fuel
exhaustion. -/
def trieLoop (docId : Nat) : Nat → SdbState → Int → List Nat → Option SdbState
  | 0, _, _, _ => none
  | fuel + 1, s, current, remaining =>
    match remaining with
    | [] => some s
    | _ :: _ =>
      match readTrieNode s current with
      | none => none
      | some node =>
        let edge := node.edge
        let common := commonLen remaining edge
        if common = edge.length then
          let rem2 := remaining.drop common
          match rem2 with
          | [] => some (writeTrieNode s current { node with docId := some docId })
          | ch :: _ =>
            match dictLookup node.children ch with
            | some child => trieLoop docId fuel s child rem2
            | none =>
              let (newPage, s1) := allocatePage s
              let newNode : TrieNode :=
                ⟨rem2.drop 1, current, (newPage : Int),
                  if rem2.length = 1 then some docId else none, []⟩
              let s2 := writeTrieNode s1 (newPage : Int) newNode
              some (writeTrieNode s2 current
                { node with children := dictInsert node.children ch (newPage : Int) })
        else if common = 0 then
          match remaining with
          | [] => none
          | ch :: _ =>
            let (newPage, s1) := allocatePage s
            let newNode : TrieNode :=
              ⟨remaining.drop 1, current, (newPage : Int),
                if remaining.length = 1 then some docId else none, []⟩
            let s2 := writeTrieNode s1 (newPage : Int) newNode
            some (writeTrieNode s2 current
              { node with children := dictInsert node.children ch (newPage : Int) })
        else
          let (suffixPage, s1) := allocatePage s
          let suffixNode : TrieNode :=
            ⟨edge.drop common, current, (suffixPage : Int), node.docId, node.children⟩
          let s2 := writeTrieNode s1 (suffixPage : Int) suffixNode
          let keyByte := edge.getD common 0
          let splitNode : TrieNode :=
            ⟨edge.take common, node.parent, current, none,
              dictInsert [(keyByte, node.selfPage)] keyByte (suffixPage : Int)⟩
          let s3opt :=
            if node.parent ≠ -1 then
              match readTrieNode s2 node.parent with
              | none => none
              | some parentNode => some (writeTrieNode s2 node.parent parentNode)
            else some s2
          match s3opt with
          | none => none
          | some s3 =>
            let s4 := writeTrieNode s3 current splitNode
            let rem2 := remaining.drop common
            match rem2 with
            | [] => some (writeTrieNode s4 current { splitNode with docId := some docId })
            | ch :: _ =>
              let (newPage, s5) := allocatePage s4
              let newNode : TrieNode :=
                ⟨rem2.drop 1, current, (newPage : Int),
                  if rem2.length = 1 then some docId else none, []⟩
              let s6 := writeTrieNode s5 (newPage : Int) newNode
              some (writeTrieNode s6 current
                { splitNode with children := dictInsert splitNode.children ch (newPage : Int) })

/-- Fuel for the trie loops: generous enough for every reachable state. -/
def trieFuel (s : SdbState) (key : List Nat) : Nat :=
  s.currentPageId + key.length + 2

/-- `_trie_insert(path, doc_id)`: reverse the path, create the root lazily,
then run the loop. -/
def trieInsert (s : SdbState) (path : List Nat) (docId : Nat) : Option SdbState :=
  let rev := path.reverse
  let s1 :=
    if s.trieRootPageId = -1 then
      let (rootPage, t) := allocatePage s
      let t2 := { t with trieRootPageId := (rootPage : Int) }
      writeTrieNode t2 (rootPage : Int) ⟨[], -1, (rootPage : Int), none, []⟩
    else s
  trieLoop docId (trieFuel s1 rev) s1 s1.trieRootPageId rev

/-- `PAGE_SIZE - PAGE_HEADER_SIZE`, the chunk budget of `write_document`. -/
def maxChunk : Nat := PAGE_SIZE - PAGE_HEADER_SIZE

/-- The `while data_pos < len(data):` loop of `write_document`, with
structural fuel.  Each iteration consumes at least one byte of `rem`, so
fuel `rem.length` (as supplied by `writeChunksAux`) never runs out and the
zero-fuel arm is unreachable.  Note that each iteration calls
`allocate_page()` afresh for its own page even when the previous iteration
already allocated a `next_page_id` for it. -/
def writeChunksFuel : Nat → SdbState → List Nat → Int → Int → SdbState × Int
  | _, s, [], first, _ => (s, first)
  | 0, s, _ :: _, first, _ => (s, first)
  | fuel + 1, s, b :: bs, first, prev =>
    let chunk := (b :: bs).take maxChunk
    let rest := (b :: bs).drop maxChunk
    let (pid, s1) := allocatePage s
    let nxt : Int × SdbState :=
      if rest.isEmpty then (-1, s1)
      else
        let (np, s2) := allocatePage s1
        ((np : Int), s2)
    let s3 := writeRawPage nxt.2 (pid : Int) chunk FLAG_DATA_PAGE 0 prev nxt.1
    let first2 := if first = -1 then (pid : Int) else first
    writeChunksFuel fuel s3 rest first2 (pid : Int)

/-- The chunk loop of `write_document`, entered with sufficient fuel. -/
def writeChunksAux (s : SdbState) (rem : List Nat) (first prev : Int) : SdbState × Int :=
  writeChunksFuel (listLen rem) s rem first prev

/-- `write_document(path, data)`: draw a UUID, emit the chunk chain, record
the `Document`, and insert the path into the trie. -/
def writeDocument (s : SdbState) (path data : List Nat) : Option SdbState :=
  let id := s.uuidSupply s.uuidCount
  let s0 := { s with uuidCount := s.uuidCount + 1 }
  let r := writeChunksAux s0 data (-1) (-1)
  let doc : Document := ⟨id, r.2, 0, [path]⟩
  let s2 := { r.1 with documents := dictInsert r.1.documents id doc }
  trieInsert s2 path id

/-- The bytes written by `_write_initial_header`: MAGIC and three
`(i64 -1, i32 0)` slots. -/
def initHeaderBytes : List Nat :=
  magicBytes ++ pack_i64 (-1) ++ pack_i32 0 ++ pack_i64 (-1) ++ pack_i32 0 ++
    pack_i64 (-1) ++ pack_i32 0

/-- `__init__`: fresh file containing only the initial header. -/
def initSdb (useCompression : Bool) (codec : Codec) (supply : Nat → Nat) : SdbState :=
  { file := fwrite [] 0 initHeaderBytes
    log := []
    useCompression := useCompression
    codec := codec
    currentPageId := 0
    documents := []
    trieRootPageId := -1
    indexPageId := -1
    uuidSupply := supply
    uuidCount := 0 }

/-- One serialized document record of `_serialize_index`. -/
def serializeDocRecord (d : Document) : List Nat :=
  uuidBytes d.id ++ pack_i64 d.firstPage ++ pack_i32 d.currentVersion ++
    pack_i32 (d.paths.length : Int) ++
    d.paths.flatMap fun p => pack_i32 (p.length : Int) ++ p

/-- `_serialize_index`: document count, then the records sorted by the UUID
keys (Python compares `UUID` values by their 128-bit integer). -/
def serializeIndex (docs : List (Nat × Document)) : List Nat :=
  pack_i32 (docs.length : Int) ++
    (sortByKey docs).flatMap fun e => serializeDocRecord e.2

/-- `close`: allocate and write the INDEX page, then rewrite the three
header slots at offset `len(MAGIC)` as `(index_page, 0), (trie_root, 0),
(-1, 0)`. -/
def closeSdb (s : SdbState) : SdbState :=
  let (idx, s1) := allocatePage s
  let s2 := { s1 with indexPageId := (idx : Int) }
  let s3 := writeRawPage s2 (idx : Int) (serializeIndex s2.documents) FLAG_INDEX_PAGE 0 (-1) (-1)
  { s3 with
    file := fwrite s3.file magicBytes.length
      (pack_i64 (idx : Int) ++ pack_i32 0 ++ pack_i64 s3.trieRootPageId ++ pack_i32 0 ++
        pack_i64 (-1) ++ pack_i32 0) }

/-- Feed a list of `(path, bytes)` pairs through `write_document`. -/
def runWrites : SdbState → List (List Nat × List Nat) → Option SdbState
  | s, [] => some s
  | s, (p, d) :: rest =>
    match writeDocument s p d with
    | none => none
    | some s2 => runWrites s2 rest

/-- Open a container and ingest the given documents in order. -/
def runSdb (useCompression : Bool) (codec : Codec) (supply : Nat → Nat)
    (inputs : List (List Nat × List Nat)) : Option SdbState :=
  runWrites (initSdb useCompression codec supply) inputs

/-- Modelled from the spec: the read-path `resolve` lookup of section 4.3,
which the source does not implement (the spec defines the read path as the
dual of the write path).  Walk from the root consuming the reversed key
against each node's edge; descend by the child whose key byte matches the
next character, stripping that byte; on exact exhaustion return the node's
`doc_id`. -/
def resolveLoop : Nat → SdbState → Int → List Nat → Option Nat
  | 0, _, _, _ => none
  | fuel + 1, s, current, remaining =>
    match readTrieNode s current with
    | none => none
    | some node =>
      if remaining.take node.edge.length = node.edge then
        match remaining.drop node.edge.length with
        | [] => node.docId
        | ch :: rest =>
          match dictLookup node.children ch with
          | none => none
          | some child => resolveLoop fuel s child rest
      else none

/-- Modelled from the spec: `resolve(path)` (section 6 read side), absent
from the source.  Reverses the path and walks the trie from the root. -/
def resolveSpec (s : SdbState) (path : List Nat) : Option Nat :=
  if s.trieRootPageId = -1 then none
  else resolveLoop (trieFuel s path.reverse) s s.trieRootPageId path.reverse

/-! ### C1: round-trip identity -/

/-- The container after writing the single document `"ab" ↦ b"x"` with
compression disabled and UUID supply 7. -/
def c1Run : Option SdbState :=
  writeDocument (initSdb false idCodec (fun _ => 7)) [97, 98] [120]

/-! ### C3: empty payload -/

/-- The container after writing the single document `"a" ↦ b""` with
compression disabled and UUID supply 5. -/
def c3Run : Option SdbState :=
  writeDocument (initSdb false idCodec (fun _ => 5)) [97] []

/-! ### C4: PayloadTooLarge -/

/-- A 4065-byte payload, one byte above the per-page budget of
`PAGE_SIZE - PAGE_HEADER_SIZE = 4064` stored bytes. -/
def c4Payload : List Nat := List.replicate 4065 1

/-- A fresh uncompressed container. -/
def c4Init : SdbState := initSdb false idCodec (fun _ => 0)

/-- The container after `write_raw_page(0, c4Payload, DATA)`. -/
def c4Run : SdbState :=
  writeRawPage c4Init ((0 : Nat) : Int) c4Payload FLAG_DATA_PAGE 0 (-1) (-1)

/-- A two-chunk payload: 4065 bytes of `0x09`. -/
def c2Payload : List Nat := List.replicate 4065 9

/-- A fresh uncompressed container with UUID supply 3. -/
def c2Init : SdbState := initSdb false idCodec (fun _ => 3)

/-! ### C8: read-path discipline -/

/-- A well-formed trie node: edge `"a"`, no parent, no document, no
children. -/
def c8Node : TrieNode := ⟨[97], -1, 0, none, []⟩

/-- Its serialized form (29 bytes). -/
def c8Stored : List Nat := serializeTrieNode c8Node

/-- Page 0's on-disk bytes for `c8Node`, except that the header's `crc32`
field is 0, which does not match the stored payload. -/
def c8PageBytes : List Nat :=
  pageHeader 0 0 (-1) (-1) FLAG_TRIE_PAGE (listLen c8Stored : Int) ++ c8Stored

/-- An on-disk container: initial header, the corrupt-CRC trie page at page
0, and one byte at the start of page 2's slot so that page 0's payload
region lies strictly inside the file. -/
def c8File : File :=
  fwrite (fwrite (fwrite [] 0 initHeaderBytes) HEADER_SIZE c8PageBytes)
    (HEADER_SIZE + 2 * PAGE_SIZE) [0]

/-- A container handle opened on `c8File` without compression. -/
def c8State : SdbState :=
  { file := c8File
    log := []
    useCompression := false
    codec := idCodec
    currentPageId := 3
    documents := []
    trieRootPageId := 0
    indexPageId := -1
    uuidSupply := fun _ => 0
    uuidCount := 0 }

/-! ### C9: output determinism -/

/-- The closed container file produced from the single input
`("a", b"x")` with compression disabled, when the UUID draw yields `u`. -/
def c9Run (u : Nat) : Option File :=
  (runSdb false idCodec (fun _ => u) [([97], [120])]).map fun s => (closeSdb s).file

/-- The file of the run with UUID draw 0. -/
def c9WitnessFile : File := (c9Run 0).getD []

/-- A two-entry document map with keys out of order. -/
def c7Docs : List (Nat × Document) := [(5, ⟨5, 0, 0, [[97]]⟩), (2, ⟨2, 1, 0, [[98]]⟩)]

/-- A concrete node: edge `"ab"`, parent 5, self 7, document id 3, children
keyed `x` and `a`. -/
def c10Node : TrieNode := ⟨[97, 98], 5, 7, some 3, [(120, 9), (97, 4)]⟩

/-- Writes at or past `HEADER_SIZE` preserve the header region and never
shrink the file. -/
def LowPres (f g : File) : Prop :=
  fsize f ≤ fsize g ∧ ∀ i, i < HEADER_SIZE → fbyte g i = fbyte f i

def c6s : SdbState :=
  (runSdb false idCodec (fun _ => 3) [([97], [5])]).getD (initSdb false idCodec fun _ => 3)

/-! ### Helper lemmas -/

theorem foldl_count {α : Type} (l : List α) (a : Nat) :
    l.foldl (fun x _ => x + 1) a = a + l.length := by
  induction l generalizing a with
  | nil => simp
  | cons b bs ih => simp [List.foldl_cons, ih]; omega

theorem listLen_eq {α : Type} (l : List α) : listLen l = l.length := by
  simp [listLen, foldl_count]

/-- C1: the claimed round-trip identity fails on the code.  After writing
the single document `(path := "ab", bytes := b"x")`, the document record
exists (UUID 7, first page 0), but resolving `"ab"` through the reverse
trie returns `none` instead of `some 7`: `_trie_insert` created the leaf
for the reversed key `"ba"` (page 2, edge `"a"`) with `document_id = None`,
because it only stores the document id when the remaining key has length 1.
-/
theorem c1_roundtrip_fails_on_code :
    c1Run.map (fun s => (resolveSpec s [97, 98], dictLookup s.documents 7, readTrieNode s 2)) =
      some (none, some ⟨7, 0, 0, [[97, 98]]⟩, some ⟨[97], 1, 2, none, []⟩) := by
  decide

/-- C3: the claim fails on the code.  `write_document(path, b"")` skips the
chunk loop entirely: not a single `DATA` page is emitted (the page log
holds only the three `TRIE` writes of the trie insert), and the recorded
`Document` has `first_page_id = -1`, the absent sentinel, not a valid page
id. -/
theorem c3_empty_payload_writes_no_page :
    c3Run.map (fun s =>
        (s.log.map (fun w => (w.pid, w.flags)), dictLookup s.documents 5)) =
      some ([(0, FLAG_TRIE_PAGE), (1, FLAG_TRIE_PAGE), (0, FLAG_TRIE_PAGE)],
        some ⟨5, -1, 0, [[97]]⟩) := by
  decide

theorem bytesLE_length (k n : Nat) : (bytesLE k n).length = k := by
  induction k generalizing n with
  | zero => rfl
  | succ m ih => simp [bytesLE, ih]

theorem pack_u32_length (n : Nat) : (pack_u32 n).length = 4 := by
  simp [pack_u32, bytesLE_length]

theorem pack_i32_length (v : Int) : (pack_i32 v).length = 4 := by
  simp [pack_i32, bytesLE_length]

theorem pack_i64_length (v : Int) : (pack_i64 v).length = 8 := by
  simp [pack_i64, bytesLE_length]

theorem pageHeader_length (crc : Nat) (v p n : Int) (flags : Nat) (d : Int) :
    (pageHeader crc v p n flags d).length = PAGE_HEADER_SIZE := by
  simp [pageHeader, pack_u32_length, pack_i32_length, pack_i64_length, PAGE_HEADER_SIZE]

/-- Reading a byte covered by the newest write returns that write's byte. -/
theorem fbyte_fwrite_in (f : File) (off : Nat) (bs : List Nat) (i : Nat)
    (h1 : off ≤ i) (h2 : i < off + bs.length) :
    fbyte (fwrite f off bs) i = bs.get? (i - off) := by
  have hlt : i - off < bs.length := by omega
  unfold fbyte fwrite
  rw [List.reverse_append]
  simp only [List.reverse_cons, List.reverse_nil, List.nil_append, List.singleton_append,
    List.findSome?_cons, listLen_eq]
  rw [if_pos ⟨h1, h2⟩]
  simp [List.get?_eq_getElem?, List.getElem?_eq_getElem hlt]

/-- Reading a byte strictly before the newest write's offset ignores it. -/
theorem fbyte_fwrite_low (f : File) (off : Nat) (bs : List Nat) (i : Nat)
    (h : i < off) :
    fbyte (fwrite f off bs) i = fbyte f i := by
  unfold fbyte fwrite
  rw [List.reverse_append]
  simp only [List.reverse_cons, List.reverse_nil, List.nil_append, List.singleton_append,
    List.findSome?_cons, listLen_eq]
  rw [if_neg (by omega)]

/-- The Int offset arithmetic of `write_raw_page` for a nonnegative page id. -/
theorem intOffset_toNat (pid : Nat) :
    ((HEADER_SIZE : Int) + (pid : Int) * (PAGE_SIZE : Int)).toNat =
      HEADER_SIZE + pid * PAGE_SIZE := by
  simp only [HEADER_SIZE, PAGE_SIZE]
  omega

/-- What one `write_raw_page` call does to the file and the log. -/
theorem writeRawPage_eq (s : SdbState) (pid : Nat) (data : List Nat) (flags : Nat)
    (v p n : Int) :
    writeRawPage s (pid : Int) data flags v p n =
      { s with
        file := fwrite s.file (HEADER_SIZE + pid * PAGE_SIZE)
          (pageHeader (crc32 (storedBytes s data)) v p n flags
            (listLen (storedBytes s data) : Int) ++ storedBytes s data)
        log := s.log ++ [⟨(pid : Int), data, storedBytes s data, flags, v, p, n⟩] } := by
  unfold writeRawPage
  rw [intOffset_toNat]

theorem writeRawPage_currentPageId (s : SdbState) (pid : Int) (data : List Nat)
    (flags : Nat) (v p n : Int) :
    (writeRawPage s pid data flags v p n).currentPageId = s.currentPageId := rfl

theorem writeRawPage_documents (s : SdbState) (pid : Int) (data : List Nat)
    (flags : Nat) (v p n : Int) :
    (writeRawPage s pid data flags v p n).documents = s.documents := rfl

theorem writeRawPage_trieRootPageId (s : SdbState) (pid : Int) (data : List Nat)
    (flags : Nat) (v p n : Int) :
    (writeRawPage s pid data flags v p n).trieRootPageId = s.trieRootPageId := rfl

theorem writeRawPage_useCompression (s : SdbState) (pid : Int) (data : List Nat)
    (flags : Nat) (v p n : Int) :
    (writeRawPage s pid data flags v p n).useCompression = s.useCompression := rfl

theorem writeRawPage_codec (s : SdbState) (pid : Int) (data : List Nat)
    (flags : Nat) (v p n : Int) :
    (writeRawPage s pid data flags v p n).codec = s.codec := rfl

theorem writeRawPage_indexPageId (s : SdbState) (pid : Int) (data : List Nat)
    (flags : Nat) (v p n : Int) :
    (writeRawPage s pid data flags v p n).indexPageId = s.indexPageId := rfl

theorem writeRawPage_uuidSupply (s : SdbState) (pid : Int) (data : List Nat)
    (flags : Nat) (v p n : Int) :
    (writeRawPage s pid data flags v p n).uuidSupply = s.uuidSupply := rfl

theorem writeRawPage_uuidCount (s : SdbState) (pid : Int) (data : List Nat)
    (flags : Nat) (v p n : Int) :
    (writeRawPage s pid data flags v p n).uuidCount = s.uuidCount := rfl

theorem writeRawPage_log (s : SdbState) (pid : Int) (data : List Nat)
    (flags : Nat) (v p n : Int) :
    (writeRawPage s pid data flags v p n).log =
      s.log ++ [⟨pid, data, storedBytes s data, flags, v, p, n⟩] := rfl

theorem c4_stored : storedBytes c4Init c4Payload = c4Payload := rfl

theorem c4_big_length :
    (pageHeader (crc32 (storedBytes c4Init c4Payload)) 0 (-1) (-1) FLAG_DATA_PAGE
      (listLen (storedBytes c4Init c4Payload) : Int) ++ storedBytes c4Init c4Payload).length
      = 4097 := by
  rw [List.length_append, pageHeader_length, c4_stored, c4Payload, List.length_replicate]
  decide

theorem c4_file_eq :
    c4Run.file = fwrite c4Init.file (HEADER_SIZE + 0 * PAGE_SIZE)
      (pageHeader (crc32 (storedBytes c4Init c4Payload)) 0 (-1) (-1) FLAG_DATA_PAGE
        (listLen (storedBytes c4Init c4Payload) : Int) ++ storedBytes c4Init c4Payload) := by
  unfold c4Run
  rw [writeRawPage_eq]

/-- C4 counterexample: the claim that an oversized stored payload makes
`write_raw_page` fail rather than write past the page's payload region is
false.  Writing 4065 stored bytes (> `PAGE_SIZE - PAGE_HEADER_SIZE` = 4064)
to page 0 completes normally — the page write is logged — and deposits a
payload byte at offset `HEADER_SIZE + PAGE_SIZE`, the first byte of page 1's
slot. -/
theorem c4_oversized_write_succeeds :
    fbyte c4Run.file (HEADER_SIZE + PAGE_SIZE) = some 1 ∧
      c4Run.log.map (fun w => (w.pid, w.flags)) = [(0, FLAG_DATA_PAGE)] := by
  have hlen : (pageHeader (crc32 (storedBytes c4Init c4Payload)) 0 (-1) (-1) FLAG_DATA_PAGE
      (listLen (storedBytes c4Init c4Payload) : Int)).length = PAGE_HEADER_SIZE :=
    pageHeader_length _ _ _ _ _ _
  constructor
  · have h1 : HEADER_SIZE + 0 * PAGE_SIZE ≤ HEADER_SIZE + PAGE_SIZE := by omega
    have h2 : HEADER_SIZE + PAGE_SIZE < HEADER_SIZE + 0 * PAGE_SIZE +
        (pageHeader (crc32 (storedBytes c4Init c4Payload)) 0 (-1) (-1) FLAG_DATA_PAGE
          (listLen (storedBytes c4Init c4Payload) : Int) ++ storedBytes c4Init c4Payload).length := by
      rw [c4_big_length]
      decide
    rw [c4_file_eq, fbyte_fwrite_in _ _ _ _ h1 h2]
    rw [List.get?_eq_getElem?]
    have hskip : (pageHeader (crc32 (storedBytes c4Init c4Payload)) 0 (-1) (-1) FLAG_DATA_PAGE
        (listLen (storedBytes c4Init c4Payload) : Int)).length ≤
        HEADER_SIZE + PAGE_SIZE - (HEADER_SIZE + 0 * PAGE_SIZE) := by
      rw [hlen]
      decide
    rw [List.getElem?_append_right hskip, hlen, c4_stored, c4Payload]
    have hidx : HEADER_SIZE + PAGE_SIZE - (HEADER_SIZE + 0 * PAGE_SIZE) - PAGE_HEADER_SIZE <
        (List.replicate 4065 (1 : Nat)).length := by
      rw [List.length_replicate]
      decide
    rw [List.getElem?_eq_getElem hidx, List.getElem_replicate]
  · unfold c4Run
    rw [writeRawPage_eq]
    rfl

/-- C4 amended: `write_raw_page` performs no size validation at all.  For
every call it appends exactly one page write at the page's offset; when the
stored bytes exceed `PAGE_SIZE - PAGE_HEADER_SIZE`, the written bytes extend
strictly beyond the end of the page's `PAGE_SIZE`-byte slot instead of the
operation failing. -/
theorem c4_write_raw_page_unchecked (s : SdbState) (pid : Nat) (data : List Nat)
    (flags : Nat) (v p n : Int)
    (h : PAGE_SIZE - PAGE_HEADER_SIZE < (storedBytes s data).length) :
    (writeRawPage s (pid : Int) data flags v p n).file =
      fwrite s.file (HEADER_SIZE + pid * PAGE_SIZE)
        (pageHeader (crc32 (storedBytes s data)) v p n flags
          (listLen (storedBytes s data) : Int) ++ storedBytes s data) ∧
    HEADER_SIZE + pid * PAGE_SIZE +
        (pageHeader (crc32 (storedBytes s data)) v p n flags
          (listLen (storedBytes s data) : Int) ++ storedBytes s data).length >
      HEADER_SIZE + (pid + 1) * PAGE_SIZE := by
  rw [writeRawPage_eq]
  refine ⟨rfl, ?_⟩
  rw [List.length_append, pageHeader_length]
  simp only [PAGE_SIZE, PAGE_HEADER_SIZE, HEADER_SIZE] at h ⊢
  omega

/-- C4 amended, witness: the 4065-byte write of `c4Run` instantiates the
amended statement. -/
theorem c4_write_raw_page_unchecked_witness :
    (writeRawPage c4Init ((0 : Nat) : Int) c4Payload FLAG_DATA_PAGE 0 (-1) (-1)).file =
      fwrite c4Init.file (HEADER_SIZE + 0 * PAGE_SIZE)
        (pageHeader (crc32 (storedBytes c4Init c4Payload)) 0 (-1) (-1) FLAG_DATA_PAGE
          (listLen (storedBytes c4Init c4Payload) : Int) ++ storedBytes c4Init c4Payload) ∧
    HEADER_SIZE + 0 * PAGE_SIZE +
        (pageHeader (crc32 (storedBytes c4Init c4Payload)) 0 (-1) (-1) FLAG_DATA_PAGE
          (listLen (storedBytes c4Init c4Payload) : Int) ++ storedBytes c4Init c4Payload).length >
      HEADER_SIZE + (0 + 1) * PAGE_SIZE :=
  c4_write_raw_page_unchecked c4Init 0 c4Payload FLAG_DATA_PAGE 0 (-1) (-1)
    (by rw [c4_stored, c4Payload, List.length_replicate]
        simp only [PAGE_SIZE, PAGE_HEADER_SIZE]
        omega)

/-! ### C5: file-header size and page offsets -/

theorem initHeaderBytes_length : initHeaderBytes.length = 44 := by
  simp only [initHeaderBytes, List.length_append, pack_i32_length, pack_i64_length]
  decide

/-- C5 counterexample: the header slots `MAGIC ++ 3 × (i64, i32)` total
`HEADER_SIZE = 44` bytes, not 32: the claimed value 32 for
`8 + 3 * (8 + 4)` is false, and the initial header written by
`_write_initial_header` is 44 bytes long. -/
theorem c5_header_size_is_44_not_32 :
    HEADER_SIZE = 44 ∧ ¬ HEADER_SIZE = 32 ∧ initHeaderBytes.length = 44 :=
  ⟨rfl, by decide, initHeaderBytes_length⟩

/-- C5 amended: the file header (MAGIC plus three `(i64, i32)` slots) totals
`HEADER_SIZE = 44` bytes, the initial header write covers exactly offsets
`0..HEADER_SIZE`, and every `write_raw_page` call for page `k` writes at
byte offset `HEADER_SIZE + k * PAGE_SIZE`, regardless of payload sizes. -/
theorem c5_header_size_and_offsets :
    HEADER_SIZE = 44 ∧
    initHeaderBytes.length = HEADER_SIZE ∧
    (∀ (c : Bool) (z : Codec) (u : Nat → Nat),
      (initSdb c z u).file = fwrite [] 0 initHeaderBytes) ∧
    ∀ (s : SdbState) (pid : Nat) (data : List Nat) (flags : Nat) (v p n : Int),
      (writeRawPage s (pid : Int) data flags v p n).file =
        fwrite s.file (HEADER_SIZE + pid * PAGE_SIZE)
          (pageHeader (crc32 (storedBytes s data)) v p n flags
            (listLen (storedBytes s data) : Int) ++ storedBytes s data) := by
  refine ⟨rfl, initHeaderBytes_length, fun c z u => rfl, fun s pid data flags v p n => ?_⟩
  rw [writeRawPage_eq]

/-! ### C2: page-chain linking -/

/-- The chunk loop on a payload that needs exactly two chunks
(`4064 < len ≤ 8128`), from any state: the first chunk is written to page
`c` (the current counter) with `next_page = c + 1`, but the loop then
allocates afresh, so the second chunk lands on page `c + 2` — page `c + 1`
is never written. -/
theorem writeChunks_two (s : SdbState) (data : List Nat)
    (h1 : 4064 < data.length) (h2 : data.length ≤ 8128) :
    writeChunksAux s data (-1) (-1) =
      (writeRawPage
        { writeRawPage { s with currentPageId := s.currentPageId + 2 }
            ((s.currentPageId : Nat) : Int) (data.take maxChunk) FLAG_DATA_PAGE 0 (-1)
            ((s.currentPageId + 1 : Nat) : Int)
          with currentPageId := s.currentPageId + 3 }
        ((s.currentPageId + 2 : Nat) : Int) (data.drop maxChunk) FLAG_DATA_PAGE 0
        ((s.currentPageId : Nat) : Int) (-1),
       ((s.currentPageId : Nat) : Int)) := by
  obtain ⟨b, bs, rfl⟩ := List.exists_cons_of_ne_nil
    (show data ≠ [] by intro h; subst h; simp at h1)
  have hmc : maxChunk = 4064 := rfl
  have hlen2 : ((b :: bs).drop maxChunk).length = (b :: bs).length - 4064 := by
    rw [List.length_drop, hmc]
  have hne2 : (b :: bs).drop maxChunk ≠ [] := by
    apply List.ne_nil_of_length_pos
    omega
  have hbs : ∃ f, bs.length = f + 1 := ⟨bs.length - 1, by simp at h1; omega⟩
  obtain ⟨f, hf⟩ := hbs
  obtain ⟨y, ys, hys⟩ := List.exists_cons_of_ne_nil hne2
  have htk : (y :: ys).take maxChunk = y :: ys := by
    apply List.take_of_length_le
    rw [← hys, hlen2, hmc]
    omega
  have hdr : (y :: ys).drop maxChunk = [] := by
    apply List.drop_eq_nil_of_le
    rw [← hys, hlen2, hmc]
    omega
  unfold writeChunksAux
  rw [listLen_eq, List.length_cons, hf]
  simp only [writeChunksFuel]
  rw [if_neg (by simp [List.isEmpty_iff, hne2])]
  simp only [allocatePage, if_true, writeRawPage_currentPageId]
  rw [hys]
  simp only [writeChunksFuel]
  rw [htk, hdr]
  simp only [List.isEmpty_nil, if_pos]
  rw [if_neg (show ¬ ((s.currentPageId : Int) = -1) by omega)]
  simp only [allocatePage, writeRawPage_currentPageId, writeChunksFuel]

/-- The empty-remaining arm of the trie-insert loop. -/
theorem trieLoop_nil_pos (d fuel : Nat) (s : SdbState) (cur : Int) (h : 0 < fuel) :
    trieLoop d fuel s cur [] = some s := by
  cases fuel with
  | zero => omega
  | succ f => rfl

/-- `_trie_insert` with an empty path on a container without a trie root
creates the root page and stops (the `while remaining:` loop never runs). -/
theorem trieInsert_nil_fresh (s : SdbState) (d : Nat) (h : s.trieRootPageId = -1) :
    trieInsert s [] d =
      some (writeTrieNode
        { s with currentPageId := s.currentPageId + 1,
                 trieRootPageId := ((s.currentPageId : Nat) : Int) }
        ((s.currentPageId : Nat) : Int)
        ⟨[], -1, ((s.currentPageId : Nat) : Int), none, []⟩) := by
  unfold trieInsert
  rw [List.reverse_nil, h]
  simp only [allocatePage, if_pos]
  apply trieLoop_nil_pos
  simp [trieFuel]

set_option maxRecDepth 4000 in
/-- C2: the claim fails on the code.  Writing the document `"" ↦ 4065 bytes`
needs two chunks; the page-write log shows the first `DATA` page at page 0
with `next_page = 1`, but the second chunk's `DATA` page is page 2 (the
loop allocates a fresh page instead of using the pre-allocated
`next_page_id`), and no page 1 is ever written — so following `next_page`
from `first_page` reaches a page that holds nothing.  The `prev_page` of
the second page (0) and the chunk contents (which concatenate to the full
payload) are correct; only the forward links are broken. -/
theorem c2_chain_links_broken :
    (writeDocument c2Init [] c2Payload).map
        (fun s => (s.log.map fun w => (w.pid, w.flags, w.prev, w.next),
                   s.log.map fun w => w.data,
                   dictLookup s.documents 3)) =
      some ([((0 : Int), FLAG_DATA_PAGE, (-1 : Int), (1 : Int)),
             (2, FLAG_DATA_PAGE, 0, -1),
             (3, FLAG_TRIE_PAGE, -1, -1)],
            [c2Payload.take maxChunk, c2Payload.drop maxChunk,
             serializeTrieNode ⟨[], -1, 3, none, []⟩],
            some ⟨3, 0, 0, [[]]⟩) ∧
    c2Payload.take maxChunk ++ c2Payload.drop maxChunk = c2Payload := by
  have hlen : c2Payload.length = 4065 := by
    rw [show c2Payload = List.replicate 4065 9 from rfl, List.length_replicate]
  constructor
  · simp only [writeDocument]
    rw [writeChunks_two _ _ (by rw [hlen]; omega) (by rw [hlen]; omega)]
    rw [trieInsert_nil_fresh _ _ rfl]
    simp only [Option.map_some', writeTrieNode, writeRawPage_log, writeRawPage_documents,
      writeRawPage_currentPageId, dictInsert, dictLookup, List.map_append, List.map_cons,
      List.map_nil]
    simp [c2Init, initSdb]
  · exact List.take_append_drop _ _

set_option maxRecDepth 4000 in
/-- C8: the claim fails on the code, which is missing the whole read-path
discipline.  `_read_trie_node` — the container's only page-read routine —
returns the parsed node even though the page header's stored CRC (0) does
not match the CRC-32 of the stored payload bytes, instead of failing with
`ChecksumMismatch`; and it hands the codec/parser the full
`PAGE_SIZE - PAGE_HEADER_SIZE = 4064`-byte payload region (the `min`
computation below) rather than the region truncated to the header's
`payload_len` (29 bytes): it never reads the page header at all. -/
theorem c8_read_path_skips_crc_and_truncation :
    readTrieNode c8State 0 = some c8Node ∧
    crc32 c8Stored ≠ 0 ∧
    min (PAGE_SIZE - PAGE_HEADER_SIZE) (fsize c8File - (HEADER_SIZE + PAGE_HEADER_SIZE)) =
      PAGE_SIZE - PAGE_HEADER_SIZE ∧
    listLen c8Stored = 29 := by
  decide

set_option maxRecDepth 12000 in
/-- C9 counterexample: two runs over the same ordered inputs with the same
codec and compression setting do not produce byte-identical files, because
`write_document` draws a fresh random UUID (`uuid.uuid4()`) per document and
the UUID bytes are stored in trie nodes and in the index page.  With UUID
draw 0 versus 1, the two files differ at byte offset 8307 (the last UUID
byte inside the trie leaf on page 2). -/
theorem c9_not_byte_identical :
    (c9Run 0).map (fun f => fbyte f 8307) = some (some 0) ∧
    (c9Run 1).map (fun f => fbyte f 8307) = some (some 1) ∧
    c9Run 0 ≠ c9Run 1 := by
  decide

/-- C9 amended: determinism holds once the UUID sequence is fixed along with
the inputs, codec and compression setting — the closed container file is a
function of these four alone. -/
theorem c9_deterministic_given_uuids (c : Bool) (z : Codec) (u : Nat → Nat)
    (inputs : List (List Nat × List Nat)) (f1 f2 : File)
    (h1 : (runSdb c z u inputs).map (fun s => (closeSdb s).file) = some f1)
    (h2 : (runSdb c z u inputs).map (fun s => (closeSdb s).file) = some f2) :
    f1 = f2 := by
  rw [h1] at h2
  exact Option.some.inj h2

set_option maxRecDepth 12000 in
/-- C9 amended, witness: the deterministic statement instantiated at the
concrete single-document run. -/
theorem c9_deterministic_given_uuids_witness : c9WitnessFile = c9WitnessFile :=
  c9_deterministic_given_uuids false idCodec (fun _ => 0) [([97], [120])]
    c9WitnessFile c9WitnessFile (by decide) (by decide)

/-! ### C7: index ordering -/

/-- Strict lexicographic comparison of equal-width big-endian byte strings
agrees with the numeric order of the encoded values. -/
theorem bytesLt_bytesBE (k a b : Nat) (hab : a < b) (hb : b < 256 ^ k) :
    bytesLt (bytesBE k a) (bytesBE k b) = true := by
  induction k generalizing a b with
  | zero =>
    simp [pow_zero] at hb
    omega
  | succ k ih =>
    have hP : 0 < 256 ^ k := Nat.pos_pow_of_pos k (by norm_num)
    have hda : a / 256 ^ k ≤ b / 256 ^ k := Nat.div_le_div_right (le_of_lt hab)
    rcases lt_or_eq_of_le hda with hlt | heq
    · simp [bytesBE, bytesLt, hlt]
    · have h1 := Nat.div_add_mod a (256 ^ k)
      have h2 := Nat.div_add_mod b (256 ^ k)
      have hmod : a % 256 ^ k < b % 256 ^ k := by
        rw [heq] at h1
        generalize hQ : 256 ^ k * (b / 256 ^ k) = Q at h1 h2
        omega
      simp [bytesBE, bytesLt, heq, ih _ _ hmod (Nat.mod_lt _ hP)]

/-- C7: the serialized index page is the document count followed by one
record per document (the sorted list is a permutation of the document map),
and the records appear in strictly ascending lexicographic order of their
16 `doc_id` bytes.  The hypotheses hold in every reachable state: dict keys
are unique, each `Document.id` is its key, and UUIDs are 128-bit values. -/
theorem c7_index_sorted (docs : List (Nat × Document))
    (hid : ∀ e ∈ docs, e.2.id = e.1)
    (hlt : ∀ e ∈ docs, e.1 < 2 ^ 128)
    (hnd : (docs.map Prod.fst).Nodup) :
    serializeIndex docs =
      pack_i32 (docs.length : Int) ++ (sortByKey docs).flatMap (fun e => serializeDocRecord e.2) ∧
    (sortByKey docs).Perm docs ∧
    List.Chain' (fun a b => bytesLt (uuidBytes a.2.id) (uuidBytes b.2.id) = true)
      (sortByKey docs) := by
  have hperm : (sortByKey docs).Perm docs := List.perm_insertionSort _ _
  refine ⟨rfl, hperm, ?_⟩
  have hsorted : List.Sorted (fun a b : Nat × Document => a.1 ≤ b.1) (sortByKey docs) := by
    haveI : IsTotal (Nat × Document) (fun a b => a.1 ≤ b.1) := ⟨fun a b => Nat.le_total a.1 b.1⟩
    haveI : IsTrans (Nat × Document) (fun a b => a.1 ≤ b.1) :=
      ⟨fun a b c hab hbc => le_trans hab hbc⟩
    exact List.sorted_insertionSort _ _
  have hndS : ((sortByKey docs).map Prod.fst).Nodup := ((hperm.map Prod.fst).nodup_iff).mpr hnd
  have hpne : (sortByKey docs).Pairwise (fun a b => a.1 ≠ b.1) := List.pairwise_map.mp hndS
  have hplt : (sortByKey docs).Pairwise (fun a b => a.1 < b.1) :=
    (hsorted.and hpne).imp fun h => lt_of_le_of_ne h.1 h.2
  have hmem : ∀ e ∈ sortByKey docs, e.2.id = e.1 ∧ e.1 < 2 ^ 128 := fun e he =>
    ⟨hid e (hperm.subset he), hlt e (hperm.subset he)⟩
  have hfinal : (sortByKey docs).Pairwise
      (fun a b => bytesLt (uuidBytes a.2.id) (uuidBytes b.2.id) = true) := by
    refine List.Pairwise.imp_of_mem ?_ hplt
    intro a b ha hb hab
    obtain ⟨haid, halt⟩ := hmem a ha
    obtain ⟨hbid, hblt⟩ := hmem b hb
    rw [uuidBytes, uuidBytes, haid, hbid]
    exact bytesLt_bytesBE 16 a.1 b.1 hab (lt_of_lt_of_le hblt (by norm_num))
  exact hfinal.chain'

/-- C7 witness: the sorting statement instantiated at a concrete two-entry
document map. -/
theorem c7_index_sorted_witness :
    serializeIndex c7Docs =
      pack_i32 (c7Docs.length : Int) ++ (sortByKey c7Docs).flatMap (fun e => serializeDocRecord e.2) ∧
    (sortByKey c7Docs).Perm c7Docs ∧
    List.Chain' (fun a b => bytesLt (uuidBytes a.2.id) (uuidBytes b.2.id) = true)
      (sortByKey c7Docs) :=
  c7_index_sorted c7Docs (by decide) (by decide) (by decide)

/-! ### C10: trie-node serialization round-trip -/

theorem parseI32_bytesLE (m : Nat) (r : List Nat) (h : m < 2 ^ 32) :
    parseI32 (bytesLE 4 m ++ r) = some (toSigned32 m, r) := by
  show parseI32 (m % 256 :: (m / 256 % 256) :: (m / 256 / 256 % 256) ::
    (m / 256 / 256 / 256 % 256) :: ([] ++ r)) = some (toSigned32 m, r)
  rw [List.nil_append]
  show some (toSigned32 (natFromLE [m % 256, m / 256 % 256, m / 256 / 256 % 256,
    m / 256 / 256 / 256 % 256]), r) = some (toSigned32 m, r)
  have : natFromLE [m % 256, m / 256 % 256, m / 256 / 256 % 256, m / 256 / 256 / 256 % 256]
      = m := by
    simp only [natFromLE]
    omega
  rw [this]

theorem parseI32_pack (v : Int) (r : List Nat) (h1 : -2 ^ 31 ≤ v) (h2 : v < 2 ^ 31) :
    parseI32 (pack_i32 v ++ r) = some (v, r) := by
  have e2 : ((2 : Int) ^ 31) = 2147483648 := by norm_num
  rw [e2] at h1 h2
  have hn : (v % (2 ^ 32 : Int)).toNat < 2 ^ 32 := by
    rw [show ((2 : Int) ^ 32) = 4294967296 from by norm_num,
      show ((2 : Nat) ^ 32) = 4294967296 from by norm_num]
    omega
  rw [pack_i32, parseI32_bytesLE _ _ hn]
  have : toSigned32 (v % (2 ^ 32 : Int)).toNat = v := by
    unfold toSigned32
    rw [show ((2 : Int) ^ 32) = 4294967296 from by norm_num,
      show ((2 : Nat) ^ 31) = 2147483648 from by norm_num]
    split <;> omega
  rw [this]

theorem parseI64_bytesLE (m : Nat) (r : List Nat) (h : m < 2 ^ 64) :
    parseI64 (bytesLE 8 m ++ r) = some (toSigned64 m, r) := by
  show parseI64 (m % 256 :: (m / 256 % 256) :: (m / 256 / 256 % 256) ::
    (m / 256 / 256 / 256 % 256) :: (m / 256 / 256 / 256 / 256 % 256) ::
    (m / 256 / 256 / 256 / 256 / 256 % 256) ::
    (m / 256 / 256 / 256 / 256 / 256 / 256 % 256) ::
    (m / 256 / 256 / 256 / 256 / 256 / 256 / 256 % 256) :: ([] ++ r)) =
    some (toSigned64 m, r)
  rw [List.nil_append]
  show some (toSigned64 (natFromLE [m % 256, m / 256 % 256, m / 256 / 256 % 256,
    m / 256 / 256 / 256 % 256, m / 256 / 256 / 256 / 256 % 256,
    m / 256 / 256 / 256 / 256 / 256 % 256,
    m / 256 / 256 / 256 / 256 / 256 / 256 % 256,
    m / 256 / 256 / 256 / 256 / 256 / 256 / 256 % 256]), r) = some (toSigned64 m, r)
  have : natFromLE [m % 256, m / 256 % 256, m / 256 / 256 % 256,
      m / 256 / 256 / 256 % 256, m / 256 / 256 / 256 / 256 % 256,
      m / 256 / 256 / 256 / 256 / 256 % 256,
      m / 256 / 256 / 256 / 256 / 256 / 256 % 256,
      m / 256 / 256 / 256 / 256 / 256 / 256 / 256 % 256] = m := by
    simp only [natFromLE]
    omega
  rw [this]

theorem parseI64_pack (v : Int) (r : List Nat) (h1 : -2 ^ 63 ≤ v) (h2 : v < 2 ^ 63) :
    parseI64 (pack_i64 v ++ r) = some (v, r) := by
  have e2 : ((2 : Int) ^ 63) = 9223372036854775808 := by norm_num
  rw [e2] at h1 h2
  have hn : (v % (2 ^ 64 : Int)).toNat < 2 ^ 64 := by
    rw [show ((2 : Int) ^ 64) = 18446744073709551616 from by norm_num,
      show ((2 : Nat) ^ 64) = 18446744073709551616 from by norm_num]
    omega
  rw [pack_i64, parseI64_bytesLE _ _ hn]
  have : toSigned64 (v % (2 ^ 64 : Int)).toNat = v := by
    unfold toSigned64
    rw [show ((2 : Int) ^ 64) = 18446744073709551616 from by norm_num,
      show ((2 : Nat) ^ 63) = 9223372036854775808 from by norm_num]
    split <;> omega
  rw [this]

theorem take16_uuid (d : Nat) (r : List Nat) :
    take16 (uuidBytes d ++ r) = some (uuidBytes d, r) := rfl

theorem natFromBE_go (k : Nat) :
    ∀ (m acc : Nat), m < 256 ^ k →
      (bytesBE k m).foldl (fun a b => a * 256 + b) acc = acc * 256 ^ k + m := by
  induction k with
  | zero =>
    intro m acc h
    simp [bytesBE, pow_zero] at h ⊢
    omega
  | succ k ih =>
    intro m acc h
    have hP : 0 < 256 ^ k := Nat.pos_pow_of_pos _ (by norm_num)
    rw [show bytesBE (k + 1) m = m / 256 ^ k :: bytesBE k (m % 256 ^ k) from rfl,
      List.foldl_cons, ih _ _ (Nat.mod_lt _ hP), pow_succ]
    have hdm := Nat.div_add_mod m (256 ^ k)
    generalize hPp : 256 ^ k = P at *
    generalize hQ : m / P = Q at *
    generalize hR : m % P = R at *
    rw [← hdm]
    ring

theorem natFromBE_uuidBytes (d : Nat) (h : d < 2 ^ 128) :
    natFromBE (uuidBytes d) = d := by
  have : d < 256 ^ 16 := by
    rw [show (256 : Nat) ^ 16 = 2 ^ 128 from by norm_num]
    exact h
  rw [uuidBytes, natFromBE, natFromBE_go 16 d 0 this]
  omega

theorem dictInsert_fresh {α : Type} (m : List (Nat × α)) (k : Nat) (v : α)
    (h : k ∉ m.map Prod.fst) : dictInsert m k v = m ++ [(k, v)] := by
  rw [dictInsert, if_neg]
  simpa using h

theorem parseChildren_append (cs : List (Nat × Int)) (r : List Nat) (acc : List (Nat × Int))
    (hk : ∀ p ∈ cs, p.1 < 128) (hv : ∀ p ∈ cs, -2 ^ 63 ≤ p.2 ∧ p.2 < 2 ^ 63)
    (hnd : ((acc ++ cs).map Prod.fst).Nodup) :
    parseChildren cs.length (cs.flatMap (fun p => utf8EncodeCp p.1 ++ pack_i64 p.2) ++ r) acc =
      some (acc ++ cs) := by
  induction cs generalizing acc with
  | nil => simp [parseChildren]
  | cons p ps ih =>
    have hk1 : p.1 < 128 := hk p (by simp)
    have hv1 := hv p (by simp)
    have henc : utf8EncodeCp p.1 = [p.1] := by
      rw [utf8EncodeCp, if_pos hk1]
    rw [List.flatMap_cons, henc, List.length_cons]
    show parseChildren (ps.length + 1)
      (p.1 :: (pack_i64 p.2 ++ ((ps.flatMap fun q => utf8EncodeCp q.1 ++ pack_i64 q.2) ++ r)))
      acc = some (acc ++ p :: ps)
    rw [parseChildren, if_pos hk1, parseI64_pack _ _ hv1.1 hv1.2]
    show parseChildren ps.length
      ((ps.flatMap fun q => utf8EncodeCp q.1 ++ pack_i64 q.2) ++ r)
      (dictInsert acc p.1 p.2) = some (acc ++ p :: ps)
    have hfresh : p.1 ∉ acc.map Prod.fst := by
      intro hmem
      rw [List.map_append] at hnd
      rcases List.nodup_append.mp hnd with ⟨-, -, hdisj⟩
      exact (hdisj hmem) (by simp)
    rw [dictInsert_fresh _ _ _ hfresh]
    have hl : (acc ++ [(p.1, p.2)]) ++ ps = acc ++ ((p.1, p.2) :: ps) := by simp
    rw [ih (acc ++ [(p.1, p.2)]) (fun q hq => hk q (by simp [hq]))
      (fun q hq => hv q (by simp [hq])) (by rw [hl]; exact hnd), hl]

theorem c10_roundtrip (n : TrieNode)
    (hkeys : ∀ p ∈ n.children, p.1 < 128)
    (hvals : ∀ p ∈ n.children, -2 ^ 63 ≤ p.2 ∧ p.2 < 2 ^ 63)
    (hknd : (n.children.map Prod.fst).Nodup)
    (hpar1 : -2 ^ 63 ≤ n.parent) (hpar2 : n.parent < 2 ^ 63)
    (hself1 : -2 ^ 63 ≤ n.selfPage) (hself2 : n.selfPage < 2 ^ 63)
    (hdoc : ∀ d, n.docId = some d → d < 2 ^ 128)
    (helen : n.edge.length < 2 ^ 31)
    (hclen : n.children.length < 2 ^ 31) :
    deserializeTrieNode (serializeTrieNode n) =
      some ⟨n.edge, n.parent, n.selfPage, n.docId, sortByKey n.children⟩ := by
  have hperm : (sortByKey n.children).Perm n.children := List.perm_insertionSort _ _
  have hcl : (sortByKey n.children).length = n.children.length := hperm.length_eq
  have he1 : -2 ^ 31 ≤ (n.edge.length : Int) := by omega
  have he2 : (n.edge.length : Int) < 2 ^ 31 := by exact_mod_cast helen
  have hc1 : -2 ^ 31 ≤ (n.children.length : Int) := by omega
  have hc2 : (n.children.length : Int) < 2 ^ 31 := by exact_mod_cast hclen
  have hH : parseChildren n.children.length
      ((sortByKey n.children).flatMap fun p => utf8EncodeCp p.1 ++ pack_i64 p.2) [] =
      some (sortByKey n.children) := by
    have h := parseChildren_append (sortByKey n.children) [] []
      (fun p hp => hkeys p (hperm.subset hp))
      (fun p hp => hvals p (hperm.subset hp))
      (by simpa using ((hperm.map Prod.fst).nodup_iff).mpr hknd)
    rw [← hcl]
    simpa using h
  rcases hd : n.docId with - | d
  · simp only [serializeTrieNode, hd, Option.isSome_none, Bool.false_eq_true, if_false,
      List.append_assoc, List.nil_append]
    simp only [deserializeTrieNode,
      parseI32_pack _ _ he1 he2,
      Int.toNat_natCast, List.take_left, List.drop_left,
      parseI64_pack _ _ hpar1 hpar2,
      parseI64_pack _ _ hself1 hself2,
      parseI32_pack (0 : Int) _ (by norm_num) (by norm_num)]
    rw [if_neg (show ¬ ((0 : Int) ≠ 0) by norm_num)]
    simp only [parseI32_pack _ _ hc1 hc2, Int.toNat_natCast, hH]
  · have hdlt : d < 2 ^ 128 := hdoc d hd
    simp only [serializeTrieNode, hd, Option.isSome_some, if_true, List.append_assoc]
    simp only [deserializeTrieNode,
      parseI32_pack _ _ he1 he2,
      Int.toNat_natCast, List.take_left, List.drop_left,
      parseI64_pack _ _ hpar1 hpar2,
      parseI64_pack _ _ hself1 hself2,
      parseI32_pack (1 : Int) _ (by norm_num) (by norm_num),
      take16_uuid, natFromBE_uuidBytes d hdlt]
    rw [if_pos (show (1 : Int) ≠ 0 by norm_num)]
    simp only [take16_uuid, natFromBE_uuidBytes d hdlt,
      parseI32_pack _ _ hc1 hc2, Int.toNat_natCast, hH]

theorem bytesBE_length (k n : Nat) : (bytesBE k n).length = k := by
  induction k generalizing n with
  | zero => rfl
  | succ m ih => simp [bytesBE, ih]

theorem childRecords_length (cs : List (Nat × Int)) (hk : ∀ p ∈ cs, p.1 < 128) :
    (cs.flatMap fun p => utf8EncodeCp p.1 ++ pack_i64 p.2).length = 9 * cs.length := by
  induction cs with
  | nil => simp
  | cons p ps ih =>
    have henc : utf8EncodeCp p.1 = [p.1] := by
      rw [utf8EncodeCp, if_pos (hk p (by simp))]
    rw [List.flatMap_cons, List.length_append, List.length_append, henc,
      pack_i64_length, ih (fun q hq => hk q (by simp [hq]))]
    simp
    ring

theorem serializeTrieNode_length (n : TrieNode) (hk : ∀ p ∈ n.children, p.1 < 128) :
    (serializeTrieNode n).length =
      28 + n.edge.length + (if n.docId.isSome then 16 else 0) + 9 * n.children.length := by
  have hperm : (sortByKey n.children).Perm n.children := List.perm_insertionSort _ _
  rw [serializeTrieNode]
  simp only [List.length_append, pack_i32_length, pack_i64_length,
    childRecords_length (sortByKey n.children) (fun p hp => hk p (hperm.subset hp)),
    hperm.length_eq]
  rcases hd : n.docId with - | d
  · simp
    omega
  · simp [uuidBytes, bytesBE_length]
    omega

/-- C10: for every trie node whose child keys are single-byte (ASCII)
characters (and whose numeric fields are in range for their wire formats,
as in every reachable state), `_deserialize_trie_node` applied to
`_serialize_trie_node` reproduces the edge string, `parent_page_id`,
`self_page_id`, `document_id`, and the child map exactly — the parsed child
list is the key-sorted permutation of the original, equal to it as a dict —
and each child record occupies exactly 1 key byte plus 8 page-id bytes
(the serialized node is 28 fixed bytes plus the edge, plus 16 bytes when a
document id is present, plus 9 bytes per child). -/
theorem c10_trie_node_roundtrip (n : TrieNode)
    (hkeys : ∀ p ∈ n.children, p.1 < 128)
    (hvals : ∀ p ∈ n.children, -2 ^ 63 ≤ p.2 ∧ p.2 < 2 ^ 63)
    (hknd : (n.children.map Prod.fst).Nodup)
    (hpar1 : -2 ^ 63 ≤ n.parent) (hpar2 : n.parent < 2 ^ 63)
    (hself1 : -2 ^ 63 ≤ n.selfPage) (hself2 : n.selfPage < 2 ^ 63)
    (hdoc : ∀ d, n.docId = some d → d < 2 ^ 128)
    (helen : n.edge.length < 2 ^ 31)
    (hclen : n.children.length < 2 ^ 31) :
    deserializeTrieNode (serializeTrieNode n) =
      some ⟨n.edge, n.parent, n.selfPage, n.docId, sortByKey n.children⟩ ∧
    (sortByKey n.children).Perm n.children ∧
    (serializeTrieNode n).length =
      28 + n.edge.length + (if n.docId.isSome then 16 else 0) + 9 * n.children.length :=
  ⟨c10_roundtrip n hkeys hvals hknd hpar1 hpar2 hself1 hself2 hdoc helen hclen,
   List.perm_insertionSort _ _,
   serializeTrieNode_length n hkeys⟩

/-- C10 witness: the round-trip statement instantiated at a concrete node
with two ASCII-keyed children and a document id. -/
theorem c10_trie_node_roundtrip_witness :
    deserializeTrieNode (serializeTrieNode c10Node) =
      some ⟨c10Node.edge, c10Node.parent, c10Node.selfPage, c10Node.docId,
        sortByKey c10Node.children⟩ ∧
    (sortByKey c10Node.children).Perm c10Node.children ∧
    (serializeTrieNode c10Node).length =
      28 + c10Node.edge.length + (if c10Node.docId.isSome then 16 else 0) +
        9 * c10Node.children.length :=
  c10_trie_node_roundtrip c10Node (by decide) (by decide) (by decide)
    (by norm_num [c10Node]) (by norm_num [c10Node]) (by norm_num [c10Node])
    (by norm_num [c10Node])
    (fun d hd => by injection hd with h; omega)
    (by norm_num [c10Node]) (by norm_num [c10Node])

theorem lowPres_refl (f : File) : LowPres f f := ⟨le_refl _, fun _ _ => Eq.refl _⟩

theorem LowPres.trans {f g h : File} (h1 : LowPres f g) (h2 : LowPres g h) : LowPres f h :=
  ⟨le_trans h1.1 h2.1, fun i hi => (h2.2 i hi).trans (h1.2 i hi)⟩

theorem fsize_go (f : File) (a : Nat) :
    f.foldr (fun w m => max (w.1 + listLen w.2) m) a = max (fsize f) a := by
  induction f with
  | nil => simp [fsize]
  | cons w f ih =>
    show max (w.1 + listLen w.2) (f.foldr _ a) = max (fsize (w :: f)) a
    rw [ih]
    show _ = max (max (w.1 + listLen w.2) (fsize f)) a
    omega

theorem fsize_fwrite (f : File) (off : Nat) (bs : List Nat) :
    fsize (fwrite f off bs) = max (fsize f) (off + bs.length) := by
  show (f ++ [(off, bs)]).foldr _ 0 = _
  rw [List.foldr_append, fsize_go]
  show max (fsize f) (max (off + listLen bs) 0) = _
  rw [listLen_eq]
  omega

theorem lowPres_fwrite (f : File) (off : Nat) (bs : List Nat) (h : HEADER_SIZE ≤ off) :
    LowPres f (fwrite f off bs) := by
  constructor
  · rw [fsize_fwrite]
    omega
  · intro i hi
    exact fbyte_fwrite_low f off bs i (by omega)

theorem lowPres_writeRawPage (s : SdbState) (pid : Int) (data : List Nat) (flags : Nat)
    (v p n : Int) (h : 0 ≤ pid) :
    LowPres s.file (writeRawPage s pid data flags v p n).file := by
  apply lowPres_fwrite
  simp only [HEADER_SIZE, PAGE_SIZE]
  omega

theorem lowPres_writeTrieNode (s : SdbState) (pid : Int) (nd : TrieNode) (h : 0 ≤ pid) :
    LowPres s.file (writeTrieNode s pid nd).file :=
  lowPres_writeRawPage s pid _ _ _ _ _ h

theorem readTrieNode_nonneg {s : SdbState} {pid : Int} {nd : TrieNode}
    (h : readTrieNode s pid = some nd) : 0 ≤ pid := by
  by_contra hneg
  rw [readTrieNode, if_pos (by omega)] at h
  exact Option.noConfusion h

theorem trieLoop_lowPres (d : Nat) :
    ∀ (fuel : Nat) (s : SdbState) (cur : Int) (rem : List Nat) (s2 : SdbState),
      trieLoop d fuel s cur rem = some s2 → LowPres s.file s2.file := by
  intro fuel
  induction fuel with
  | zero => intro s c r s2 h; exact Option.noConfusion h
  | succ fuel ih =>
    intro s cur rem s2 h
    rcases rem with - | ⟨ch0, rem0⟩
    · exact Option.some.inj h ▸ lowPres_refl s.file
    · rw [trieLoop.eq_def] at h
      simp only [] at h
      rcases hread : readTrieNode s cur with - | node
      · rw [hread] at h; exact Option.noConfusion h
      · have hcur : 0 ≤ cur := readTrieNode_nonneg hread
        rw [hread] at h
        simp only [] at h
        by_cases hc1 : commonLen (ch0 :: rem0) node.edge = node.edge.length
        · rw [if_pos hc1] at h
          rcases hdrop : (ch0 :: rem0).drop (commonLen (ch0 :: rem0) node.edge)
            with - | ⟨ch, rem2⟩
          · rw [hdrop] at h
            simp only [] at h
            obtain rfl := Option.some.inj h
            exact lowPres_writeTrieNode s cur _ hcur
          · rw [hdrop] at h
            simp only [] at h
            rcases hlook : dictLookup node.children ch with - | child
            · rw [hlook] at h
              simp only [] at h
              obtain rfl := Option.some.inj h
              exact (lowPres_writeTrieNode _ _ _ (Int.natCast_nonneg _)).trans
                (lowPres_writeTrieNode _ cur _ hcur)
            · rw [hlook] at h
              simp only [] at h
              exact ih s child (ch :: rem2) s2 h
        · rw [if_neg hc1] at h
          by_cases hc0 : commonLen (ch0 :: rem0) node.edge = 0
          · rw [if_pos hc0] at h
            obtain rfl := Option.some.inj h
            exact (lowPres_writeTrieNode _ _ _ (Int.natCast_nonneg _)).trans
              (lowPres_writeTrieNode _ cur _ hcur)
          · rw [if_neg hc0] at h
            by_cases hp : node.parent = -1
            · rw [if_neg (by simp [hp])] at h
              simp only [] at h
              rcases hdrop : (ch0 :: rem0).drop (commonLen (ch0 :: rem0) node.edge)
                with - | ⟨ch, rem2⟩
              · rw [hdrop] at h
                simp only [] at h
                obtain rfl := Option.some.inj h
                exact ((lowPres_writeTrieNode _ _ _ (Int.natCast_nonneg _)).trans
                  (lowPres_writeTrieNode _ cur _ hcur)).trans
                  (lowPres_writeTrieNode _ cur _ hcur)
              · rw [hdrop] at h
                simp only [] at h
                obtain rfl := Option.some.inj h
                exact (((lowPres_writeTrieNode _ _ _ (Int.natCast_nonneg _)).trans
                  (lowPres_writeTrieNode _ cur _ hcur)).trans
                  (lowPres_writeTrieNode _ _ _ (Int.natCast_nonneg _))).trans
                  (lowPres_writeTrieNode _ cur _ hcur)
            · rw [if_pos hp] at h
              rcases hpread : readTrieNode _ node.parent with - | parentNode
              · rw [hpread] at h
                exact Option.noConfusion h
              · have hppos : 0 ≤ node.parent := readTrieNode_nonneg hpread
                rw [hpread] at h
                simp only [] at h
                rcases hdrop : (ch0 :: rem0).drop (commonLen (ch0 :: rem0) node.edge)
                  with - | ⟨ch, rem2⟩
                · rw [hdrop] at h
                  simp only [] at h
                  obtain rfl := Option.some.inj h
                  exact (((lowPres_writeTrieNode _ _ _ (Int.natCast_nonneg _)).trans
                    (lowPres_writeTrieNode _ _ _ hppos)).trans
                    (lowPres_writeTrieNode _ cur _ hcur)).trans
                    (lowPres_writeTrieNode _ cur _ hcur)
                · rw [hdrop] at h
                  simp only [] at h
                  obtain rfl := Option.some.inj h
                  exact ((((lowPres_writeTrieNode _ _ _ (Int.natCast_nonneg _)).trans
                    (lowPres_writeTrieNode _ _ _ hppos)).trans
                    (lowPres_writeTrieNode _ cur _ hcur)).trans
                    (lowPres_writeTrieNode _ _ _ (Int.natCast_nonneg _))).trans
                    (lowPres_writeTrieNode _ cur _ hcur)

theorem trieInsert_lowPres (s : SdbState) (path : List Nat) (docId : Nat)
    (s2 : SdbState) (h : trieInsert s path docId = some s2) :
    LowPres s.file s2.file := by
  simp only [trieInsert] at h
  by_cases hr : s.trieRootPageId = -1
  · rw [if_pos hr] at h
    refine LowPres.trans ?_ (trieLoop_lowPres docId _ _ _ _ _ h)
    exact lowPres_writeTrieNode _ _ _ (Int.natCast_nonneg _)
  · rw [if_neg hr] at h
    exact trieLoop_lowPres docId _ _ _ _ _ h

theorem writeChunksFuel_lowPres :
    ∀ (fuel : Nat) (s : SdbState) (rem : List Nat) (first prev : Int),
      LowPres s.file (writeChunksFuel fuel s rem first prev).1.file := by
  intro fuel
  induction fuel with
  | zero =>
    intro s rem first prev
    rcases rem with - | ⟨b, bs⟩ <;> exact lowPres_refl _
  | succ fuel ih =>
    intro s rem first prev
    rcases rem with - | ⟨b, bs⟩
    · exact lowPres_refl _
    · simp only [writeChunksFuel, allocatePage]
      by_cases he : ((b :: bs).drop maxChunk).isEmpty
      · rw [if_pos he]
        refine LowPres.trans ?_ (ih _ _ _ _)
        exact lowPres_writeRawPage _ _ _ _ _ _ _ (Int.natCast_nonneg _)
      · rw [if_neg he]
        refine LowPres.trans ?_ (ih _ _ _ _)
        exact lowPres_writeRawPage _ _ _ _ _ _ _ (Int.natCast_nonneg _)

theorem writeDocument_lowPres (s : SdbState) (path data : List Nat)
    (s2 : SdbState) (h : writeDocument s path data = some s2) :
    LowPres s.file s2.file := by
  simp only [writeDocument, writeChunksAux] at h
  refine LowPres.trans ?_ (trieInsert_lowPres _ _ _ _ h)
  exact writeChunksFuel_lowPres (listLen data) { s with uuidCount := s.uuidCount + 1 }
    data (-1) (-1)

theorem runWrites_lowPres :
    ∀ (inputs : List (List Nat × List Nat)) (s s2 : SdbState),
      runWrites s inputs = some s2 → LowPres s.file s2.file := by
  intro inputs
  induction inputs with
  | nil =>
    intro s s2 h
    exact Option.some.inj h ▸ lowPres_refl _
  | cons pd rest ih =>
    intro s s2 h
    rw [runWrites] at h
    rcases hw : writeDocument s pd.1 pd.2 with - | s1
    · rw [hw] at h; exact Option.noConfusion h
    · rw [hw] at h
      exact (writeDocument_lowPres _ _ _ _ hw).trans (ih _ _ h)

theorem freadGo_fwrite (f : File) (off : Nat) (bs : List Nat) :
    ∀ (k j : Nat), j + k ≤ bs.length →
      freadGo (fwrite f off bs) (off + j) k = (bs.drop j).take k := by
  intro k
  induction k with
  | zero => intro j h; simp [freadGo]
  | succ k ih =>
    intro j h
    have hj : j < bs.length := by omega
    rw [freadGo]
    have h1 : fbyte (fwrite f off bs) (off + j) = bs.get? j := by
      have := fbyte_fwrite_in f off bs (off + j) (by omega) (by omega)
      simpa using this
    rw [h1]
    have h2 : freadGo (fwrite f off bs) (off + j + 1) k = (bs.drop (j + 1)).take k :=
      ih (j + 1) (by omega)
    rw [h2]
    rw [List.get?_eq_getElem?, List.getElem?_eq_getElem hj, Option.getD_some]
    rw [← List.getElem_cons_drop bs j hj]
    rfl

theorem fread_fwrite_self (f : File) (off : Nat) (bs : List Nat) :
    fread (fwrite f off bs) off bs.length = bs := by
  unfold fread
  have hs : fsize (fwrite f off bs) = max (fsize f) (off + bs.length) :=
    fsize_fwrite f off bs
  have hmin : min bs.length (fsize (fwrite f off bs) - off) = bs.length := by
    rw [hs]; omega
  rw [hmin]
  have := freadGo_fwrite f off bs bs.length 0 (by omega)
  simpa using this

theorem freadGo_congr (f g : File) :
    ∀ (k off : Nat), (∀ i, off ≤ i → i < off + k → fbyte f i = fbyte g i) →
      freadGo f off k = freadGo g off k := by
  intro k
  induction k with
  | zero => intro off hyp; rfl
  | succ k ih =>
    intro off hyp
    rw [freadGo, freadGo, hyp off (le_refl _) (by omega),
      ih (off + 1) (fun i h1 h2 => hyp i (by omega) (by omega))]

theorem closeSdb_file (s : SdbState) :
    (closeSdb s).file =
      fwrite (writeRawPage { s with currentPageId := s.currentPageId + 1, indexPageId := ((s.currentPageId : Nat) : Int) } ((s.currentPageId : Nat) : Int) (serializeIndex s.documents) FLAG_INDEX_PAGE 0 (-1) (-1)).file 8
        (pack_i64 ((s.currentPageId : Nat) : Int) ++ pack_i32 0 ++
          pack_i64 s.trieRootPageId ++ pack_i32 0 ++ pack_i64 (-1) ++ pack_i32 0) := rfl

theorem hdr36_length (a b : Int) :
    (pack_i64 a ++ pack_i32 0 ++ pack_i64 b ++ pack_i32 0 ++
      pack_i64 (-1) ++ pack_i32 0).length = 36 := by
  simp [pack_i64_length, pack_i32_length]

theorem fread_magic_of_low (f : File) (hsz : 44 ≤ fsize f)
    (hb : ∀ i, i < 8 → fbyte f i = fbyte (fwrite [] 0 initHeaderBytes) i) :
    fread f 0 8 = magicBytes := by
  unfold fread
  have hmin : min 8 (fsize f - 0) = 8 := by omega
  rw [hmin]
  rw [freadGo_congr f (fwrite [] 0 initHeaderBytes) 8 0 (fun i h1 h2 => hb i (by omega))]
  have hgo := freadGo_fwrite [] 0 initHeaderBytes 8 0 (by decide)
  simp only [Nat.add_zero, List.drop_zero] at hgo
  rw [hgo]
  decide

theorem c6_close_header (compr : Bool) (codec : Codec) (supply : Nat → Nat)
    (inputs : List (List Nat × List Nat)) (s : SdbState)
    (h : runSdb compr codec supply inputs = some s) :
    fread (closeSdb s).file 0 8 = magicBytes ∧
    fread (closeSdb s).file 8 36 =
      pack_i64 (closeSdb s).indexPageId ++ pack_i32 0 ++
        pack_i64 s.trieRootPageId ++ pack_i32 0 ++ pack_i64 (-1) ++ pack_i32 0 ∧
    (closeSdb s).indexPageId = ((s.currentPageId : Nat) : Int) ∧
    (closeSdb s).log = s.log ++
      [⟨((s.currentPageId : Nat) : Int), serializeIndex s.documents,
        storedBytes s (serializeIndex s.documents), FLAG_INDEX_PAGE, 0, -1, -1⟩] := by
  have hlow : LowPres (initSdb compr codec supply).file s.file :=
    runWrites_lowPres inputs _ s h
  refine ⟨?_, ?_, rfl, rfl⟩
  · rw [closeSdb_file]
    apply fread_magic_of_low
    · rw [fsize_fwrite, hdr36_length]
      exact le_max_of_le_right (by norm_num)
    · intro i hi
      rw [fbyte_fwrite_low _ _ _ _ (by omega)]
      have hw := (lowPres_writeRawPage { s with currentPageId := s.currentPageId + 1, indexPageId := ((s.currentPageId : Nat) : Int) } ((s.currentPageId : Nat) : Int) (serializeIndex s.documents) FLAG_INDEX_PAGE 0 (-1) (-1) (Int.natCast_nonneg _)).2 i (by simp only [HEADER_SIZE]; omega)
      rw [hw]
      show fbyte s.file i = _
      exact hlow.2 i (by simp only [HEADER_SIZE]; omega)
  · rw [closeSdb_file]
    have base := fread_fwrite_self (writeRawPage { s with currentPageId := s.currentPageId + 1, indexPageId := ((s.currentPageId : Nat) : Int) } ((s.currentPageId : Nat) : Int) (serializeIndex s.documents) FLAG_INDEX_PAGE 0 (-1) (-1)).file 8 (pack_i64 ((s.currentPageId : Nat) : Int) ++ pack_i32 0 ++ pack_i64 s.trieRootPageId ++ pack_i32 0 ++ pack_i64 (-1) ++ pack_i32 0)
    rw [hdr36_length] at base
    rw [base]
    rfl

set_option maxRecDepth 12000 in
theorem c6_close_header_witness :
    fread (closeSdb c6s).file 0 8 = magicBytes ∧
    fread (closeSdb c6s).file 8 36 =
      pack_i64 (closeSdb c6s).indexPageId ++ pack_i32 0 ++
        pack_i64 c6s.trieRootPageId ++ pack_i32 0 ++ pack_i64 (-1) ++ pack_i32 0 ∧
    (closeSdb c6s).indexPageId = ((c6s.currentPageId : Nat) : Int) ∧
    (closeSdb c6s).log = c6s.log ++
      [⟨((c6s.currentPageId : Nat) : Int), serializeIndex c6s.documents,
        storedBytes c6s (serializeIndex c6s.documents), FLAG_INDEX_PAGE, 0, -1, -1⟩] :=
  c6_close_header false idCodec (fun _ => 3) [([97], [5])] c6s (by rfl)
